import Mathlib

/-!
Verification development for `hax/hax/handler.py` (`ConsumerThread._do_work`),
the single-consumer message-dispatch loop of cortx-hare's hax process.

The loop is embedded as a fuel-bounded trace-producing interpreter.  Calls
into external collaborators (the HA link, the Consul client, the event-queue
publisher, the FFI layer) are recorded as events; the outcome a collaborator
produces for the one call a given message triggers is carried on the message
itself, since each message is dispatched at most once.  The mutable
`self.is_stopped` flag, written by another thread, is modelled as an oracle
giving the value observed at each read.
-/

namespace HaxHandler

/-- Motr fid (container and key), as in `hax.types.Fid`. -/
structure Fid where
  container : Nat
  key : Nat
deriving DecidableEq, Repr

/-- One SNS repair status record, as in `hax.types.SnsRepairStatusItem`. -/
structure SnsRepairStatusItem where
  progress : Nat
  status : String
  fid : Fid
deriving DecidableEq, Repr

/-- Values the consumer writes to a reply channel (`reply_to.put(...)`). -/
inductive ChanVal
  | msgIds (ids : List Nat)
  | snsStatus (items : List SnsRepairStatusItem)
deriving DecidableEq, Repr

/-- Outcome of a single non-retried collaborator call: it returns normally,
raises an ordinary `Exception`, or raises `StopIteration`. -/
inductive Outcome
  | ok
  | exc
  | stopExc
deriving DecidableEq, Repr

/-- Messages pulled from the queue by `ConsumerThread._do_work`, following
`hax.message` as used in `handler.py`.  The behaviour the external
collaborator exhibits for the call(s) a message triggers is carried on the
message: `sendOut`/`bOut` give the outcome of the one call the handler
makes, and `firstOk` gives the number of failing attempts before the first
success of the retried call (`none` means it never succeeds).  `unknown`
stands for any dequeued item outside the six recognized variants. -/
inductive Msg
  | entrypointRequest (link : Nat) (sendOut : Outcome)
  | processEvent (evt : Nat) (firstOk : Option Nat)
  | haNvecGetEvent (link : Nat) (firstOk : Option Nat)
  | broadcastHAStates (states : List Nat) (replyTo : Option Nat) (bOut : Outcome)
      (res : List Nat)
  | stobIoqError (fid : Fid) (payload : Nat) (offset : Nat)
  | snsRepairStatus (replyTo : Nat)
  | unknown (tag : Nat)
deriving DecidableEq, Repr

/-- Observable events of one run of `ConsumerThread._do_work`. -/
inductive Ev
  | adopt                                   -- ffi.adopt_motr_thread()
  | shun                                    -- ffi.shun_motr_thread()
  | sleepWait                               -- time.sleep(0.2) in the wait loop
  | checkStop (b : Bool)                    -- read of self.is_stopped
  | dispatchBegin (m : Msg)                 -- dispatch of a dequeued item starts
  | sendEntrypointReply (link : Nat)        -- ha_link.send_entrypoint_request_reply
  | updateProcessStatus (evt : Nat)         -- self.consul.update_process_status
  | nvecGetReply (link : Nat)               -- ha_link_instance.ha_nvec_get_reply
  | retryLogError                           -- log of a caught error inside the retry wrapper
  | retrySleep                              -- sleep(wait_seconds) inside the retry wrapper
  | broadcast (link : Nat) (states : List Nat)  -- ha_link.broadcast_ha_states
  | chanPut (ch : Nat) (v : ChanVal)        -- reply_to.put(...)
  | publish (category : String) (payload : String)  -- eq_publisher.publish
  | logOffset (offset : Nat)                -- logging.debug of the returned epoch offset
  | sleepSns                                -- time.sleep(5) in the SNS stub arm
  | logWarnUnsupported                      -- logging.warning for unsupported items
  | logError                                -- logging.exception in the catch-all
deriving DecidableEq, Repr

/-- Modelled from the spec: `dump_json` (from `hax.util`) is not under `src/`.
The spec requires a deterministic canonical textual serialization of the
payload, the same input giving byte-identical output on every run; any
injective-enough deterministic rendering represents it. -/
def dump_json (fid : Fid) (payload : Nat) : String :=
  "fid=" ++ toString fid.container ++ ":" ++ toString fid.key ++
    ";payload=" ++ toString payload

/-- The hard-coded synthetic SNS status record written by the
`SnsRepairStatus` arm: progress 25, status M0_CMS_ACTIVE, and the literal
fid 0x7200000000000001:0xdeadbeef. -/
def snsStub : SnsRepairStatusItem :=
  { progress := 25
    status := "M0_CMS_ACTIVE"
    fid := { container := 0x7200000000000001, key := 0xdeadbeef } }

/-- Modelled from the spec: `repeat_if_fails` (from `hax.util`) is not under
`src/`.  Per spec 4.3 it executes the action; on any exception it logs it
and sleeps the fixed wait interval, then retries the same call; it repeats
indefinitely with no maximum attempt count and no backoff growth.  `call` is
the event recording one invocation of the wrapped action, `firstOk` the
number of failing attempts before the first success, and `fuel` bounds the
unrolling in this embedding.  Returns the trace of the retry loop and
whether the action succeeded within `fuel` attempts. -/
def repeat_if_fails (call : Ev) : Option Nat → Nat → List Ev × Bool
  | _, 0 => ([], false)
  | some 0, _ + 1 => ([call], true)
  | some (n + 1), fuel + 1 =>
      let r := repeat_if_fails call (some n) fuel
      (call :: Ev.retryLogError :: Ev.retrySleep :: r.1, r.2)
  | none, fuel + 1 =>
      let r := repeat_if_fails call none fuel
      (call :: Ev.retryLogError :: Ev.retrySleep :: r.1, r.2)

/-- Closed form of the retry trace when the wrapped action fails exactly `n`
times and then succeeds: `n` blocks of invocation, error log, fixed-interval
sleep, then the final successful invocation. -/
def retryExpected (call : Ev) : Nat → List Ev
  | 0 => [call]
  | n + 1 => call :: Ev.retryLogError :: Ev.retrySleep :: retryExpected call n

/-- Result of dispatching one message: returned normally, raised an ordinary
`Exception`, raised `StopIteration`, or never returned within fuel (a retry
that never succeeds). -/
inductive DResult
  | ok
  | exc
  | stop
  | diverge
deriving DecidableEq, Repr

/-- One dispatch step of `ConsumerThread._do_work` (the `isinstance` chain),
given the current binding of the function-local variable `ha_link` (`none`
when no `EntrypointRequest` has been dispatched yet in this run; the
`BroadcastHAStates` arm then raises `UnboundLocalError`, since `ha_link` is
assigned only in the `EntrypointRequest` arm).  Returns the events emitted,
the new `ha_link` binding, and the result. -/
def dispatch (fuel : Nat) (ha : Option Nat) : Msg → List Ev × Option Nat × DResult
  | .entrypointRequest l o =>
      -- the assignment ha_link = item.ha_link_instance precedes the send,
      -- so the binding is updated even when the send raises
      ([Ev.sendEntrypointReply l], some l,
        match o with
        | .ok => DResult.ok
        | .exc => DResult.exc
        | .stopExc => DResult.stop)
  | .processEvent e fo =>
      let r := repeat_if_fails (Ev.updateProcessStatus e) fo fuel
      (r.1, ha, if r.2 then DResult.ok else DResult.diverge)
  | .haNvecGetEvent l fo =>
      let r := repeat_if_fails (Ev.nvecGetReply l) fo fuel
      (r.1, ha, if r.2 then DResult.ok else DResult.diverge)
  | .broadcastHAStates states reply o res =>
      match ha with
      | none => ([], none, DResult.exc)  -- UnboundLocalError on ha_link
      | some l =>
          match o with
          | .ok =>
              (Ev.broadcast l states ::
                 (match reply with
                  | some ch => [Ev.chanPut ch (ChanVal.msgIds res)]
                  | none => []),
               some l, DResult.ok)
          | .exc => ([Ev.broadcast l states], some l, DResult.exc)
          | .stopExc => ([Ev.broadcast l states], some l, DResult.stop)
  | .stobIoqError fid payload off =>
      ([Ev.publish "STOB_IOQ" (dump_json fid payload), Ev.logOffset off], ha,
       DResult.ok)
  | .snsRepairStatus ch =>
      ([Ev.sleepSns, Ev.chanPut ch (ChanVal.snsStatus [snsStub])], ha, DResult.ok)
  | .unknown _ => ([Ev.logWarnUnsupported], ha, DResult.ok)

/-- One guarded dispatch: the dispatch step together with the per-message
error containment (`except Exception: logging.exception`); an ordinary
exception is logged and swallowed, `StopIteration` is re-raised. -/
def contain (fuel : Nat) (ha : Option Nat) (m : Msg) : List Ev × Option Nat × DResult :=
  let d := dispatch fuel ha m
  (Ev.dispatchBegin m :: d.1 ++ (if d.2.2 = DResult.exc then [Ev.logError] else []),
   d.2.1, d.2.2)

/-- What the loop does after one guarded dispatch, depending on its result:
on `StopIteration` it escapes to the shun handshake, on divergence it never
returns, otherwise (normal return or swallowed exception) it continues. -/
def afterDispatch (r : DResult) (cont : List Ev) : List Ev :=
  match r with
  | .stop => [Ev.shun]
  | .diverge => []
  | _ => cont

/-- The body of the `while True` loop of `_do_work`: non-blocking dequeue;
on an empty mailbox, sleep the fixed interval, read `self.is_stopped`
(raising `StopIteration` when set) and try again; on a message, guarded
dispatch regardless of the flag.  `stop sc` is the flag value observed at
the `sc`-th read; `fuel` bounds the unrolling, and a fuel-exhausted trace is
simply truncated. -/
def runLoop (stop : Nat → Bool) (dfuel : Nat) :
    Nat → List Msg → Option Nat → Nat → List Ev
  | 0, _, _, _ => []
  | fuel + 1, [], ha, sc =>
      Ev.sleepWait :: Ev.checkStop (stop sc) ::
        (if stop sc then [Ev.shun] else runLoop stop dfuel fuel [] ha (sc + 1))
  | fuel + 1, m :: rest, ha, sc =>
      let c := contain dfuel ha m
      c.1 ++ afterDispatch c.2.2 (runLoop stop dfuel fuel rest c.2.1 sc)

/-- A whole run of `ConsumerThread._do_work`: adopt the Motr thread, then
the loop; on `StopIteration` the loop itself emits the shun handshake. -/
def run (stop : Nat → Bool) (dfuel fuel : Nat) (q : List Msg) : List Ev :=
  Ev.adopt :: runLoop stop dfuel fuel q none 0

/-- Trace of the wait loop once the mailbox is exhausted. -/
def waitTail (stop : Nat → Bool) : Nat → Nat → List Ev
  | 0, _ => []
  | w + 1, sc =>
      Ev.sleepWait :: Ev.checkStop (stop sc) ::
        (if stop sc then [Ev.shun] else waitTail stop w (sc + 1))

/-- Sequential trace of guarded dispatches of a whole message list, threading
the `ha_link` binding from each dispatch to the next. -/
def okRun (dfuel : Nat) : List Msg → Option Nat → List Ev
  | [], _ => []
  | m :: rest, ha =>
      let c := contain dfuel ha m
      c.1 ++ okRun dfuel rest c.2.1

/-- Every guarded dispatch along the list returns normally or with a
swallowed exception (no `StopIteration` raised by a handler, no divergent
retry). -/
def resultsTame (dfuel : Nat) : List Msg → Option Nat → Bool
  | [], _ => true
  | m :: rest, ha =>
      let c := contain dfuel ha m
      ((c.2.2 == DResult.ok) || (c.2.2 == DResult.exc)) && resultsTame dfuel rest c.2.1

/-- Events emitted by the body of a handler action (everything a dispatch
step can emit). -/
def handlerEv : Ev → Bool
  | .sendEntrypointReply _ => true
  | .updateProcessStatus _ => true
  | .nvecGetReply _ => true
  | .retryLogError => true
  | .retrySleep => true
  | .broadcast _ _ => true
  | .chanPut _ _ => true
  | .publish _ _ => true
  | .logOffset _ => true
  | .sleepSns => true
  | .logWarnUnsupported => true
  | _ => false

/-- Events that are not part of the wait/shutdown machinery of the loop
(neither a stop check, nor the wait sleep, nor the adopt/shun handshakes). -/
def notWaitEv : Ev → Bool
  | .checkStop _ => false
  | .sleepWait => false
  | .adopt => false
  | .shun => false
  | _ => true

/-- Scanner: every stop check in the trace comes immediately after the
fixed-interval sleep of the wait loop; the flag records whether the previous
event was that sleep. -/
def cfs : Bool → List Ev → Bool
  | _, [] => true
  | p, Ev.checkStop _ :: rest => p && cfs false rest
  | _, Ev.sleepWait :: rest => cfs true rest
  | _, _ :: rest => cfs false rest

/-- Scanner: after any stop check that observed the flag set, the only
remaining event is the release handshake. -/
def afterStopOnlyShun : List Ev → Bool
  | [] => true
  | Ev.checkStop true :: rest => decide (rest = [Ev.shun])
  | _ :: rest => afterStopOnlyShun rest

/-- Scanner: every occurrence of the release handshake is the final event of
the trace. -/
def shunLastOnly : List Ev → Bool
  | [] => true
  | Ev.shun :: rest => decide (rest = [])
  | _ :: rest => shunLastOnly rest

/-- The message a dispatch-begin event carries, if any. -/
def beginMsg : Ev → Option Msg
  | Ev.dispatchBegin m => some m
  | _ => none

/-- The messages whose dispatch begins, in trace order. -/
def beginsOf (t : List Ev) : List Msg :=
  t.filterMap beginMsg

/-- Number of occurrences of one given event in a trace. -/
def callCount (call : Ev) : List Ev → Nat
  | [] => 0
  | x :: t => (if x = call then 1 else 0) + callCount call t

/-- Number of publish calls (any category, any payload) in a trace. -/
def pubCount : List Ev → Nat
  | [] => 0
  | Ev.publish _ _ :: rest => pubCount rest + 1
  | _ :: rest => pubCount rest

/-- Number of reply-channel writes (any channel, any value) in a trace. -/
def putCount : List Ev → Nat
  | [] => 0
  | Ev.chanPut _ _ :: rest => putCount rest + 1
  | _ :: rest => putCount rest

/-- Number of stop-flag reads in a trace. -/
def checkCount : List Ev → Nat
  | [] => 0
  | Ev.checkStop _ :: rest => checkCount rest + 1
  | _ :: rest => checkCount rest

/-! Helper lemmas about the retry wrapper and one dispatch step. -/

lemma repeat_mem (call : Ev) :
    ∀ fuel fo e, e ∈ (repeat_if_fails call fo fuel).1 →
      e = call ∨ e = Ev.retryLogError ∨ e = Ev.retrySleep := by
  intro fuel
  induction fuel with
  | zero => intro fo e he; simp [repeat_if_fails] at he
  | succ n ih =>
    intro fo e he
    match fo with
    | some 0 =>
        simp [repeat_if_fails] at he
        exact Or.inl he
    | some (k + 1) =>
        simp [repeat_if_fails] at he
        rcases he with h | h | h | h
        · exact Or.inl h
        · exact Or.inr (Or.inl h)
        · exact Or.inr (Or.inr h)
        · exact ih (some k) e h
    | none =>
        simp [repeat_if_fails] at he
        rcases he with h | h | h | h
        · exact Or.inl h
        · exact Or.inr (Or.inl h)
        · exact Or.inr (Or.inr h)
        · exact ih none e h

lemma repeat_closed (call : Ev) :
    ∀ N fuel, N < fuel →
      repeat_if_fails call (some N) fuel = (retryExpected call N, true) := by
  intro N
  induction N with
  | zero =>
      intro fuel h
      match fuel, h with
      | f + 1, _ => simp [repeat_if_fails, retryExpected]
  | succ k ih =>
      intro fuel h
      match fuel, h with
      | f + 1, h =>
        have hk : k < f := Nat.lt_of_succ_lt_succ h
        simp [repeat_if_fails, retryExpected, ih f hk]

lemma dispatch_mem (dfuel : Nat) (ha : Option Nat) (m : Msg) :
    ∀ e ∈ (dispatch dfuel ha m).1, handlerEv e = true := by
  intro e he
  cases m with
  | entrypointRequest l o =>
      simp [dispatch] at he
      subst he; rfl
  | processEvent ev fo =>
      simp only [dispatch] at he
      rcases repeat_mem (Ev.updateProcessStatus ev) dfuel fo e he with h | h | h <;>
        subst h <;> rfl
  | haNvecGetEvent l fo =>
      simp only [dispatch] at he
      rcases repeat_mem (Ev.nvecGetReply l) dfuel fo e he with h | h | h <;>
        subst h <;> rfl
  | broadcastHAStates s reply o res =>
      cases ha with
      | none => simp [dispatch] at he
      | some l =>
          cases o with
          | ok =>
              cases reply with
              | none => simp [dispatch] at he; subst he; rfl
              | some ch =>
                  simp [dispatch] at he
                  rcases he with h | h <;> subst h <;> rfl
          | exc => simp [dispatch] at he; subst he; rfl
          | stopExc => simp [dispatch] at he; subst he; rfl
  | stobIoqError fid payload off =>
      simp [dispatch] at he
      rcases he with h | h <;> subst h <;> rfl
  | snsRepairStatus ch =>
      simp [dispatch] at he
      rcases he with h | h <;> subst h <;> rfl
  | unknown t =>
      simp [dispatch] at he
      subst he; rfl

lemma handlerEv_notWait (e : Ev) (h : handlerEv e = true) : notWaitEv e = true := by
  cases e <;> simp_all [handlerEv, notWaitEv]

lemma contain_mem (dfuel : Nat) (ha : Option Nat) (m : Msg) :
    ∀ e ∈ (contain dfuel ha m).1,
      e = Ev.dispatchBegin m ∨ handlerEv e = true ∨ e = Ev.logError := by
  intro e he
  rw [show (contain dfuel ha m).1 = Ev.dispatchBegin m :: ((dispatch dfuel ha m).1 ++
      (if (dispatch dfuel ha m).2.2 = DResult.exc then [Ev.logError] else []))
    from rfl] at he
  rcases List.mem_cons.mp he with h | h
  · exact Or.inl h
  · rcases List.mem_append.mp h with h2 | h2
    · exact Or.inr (Or.inl (dispatch_mem dfuel ha m e h2))
    · split at h2
      · simp at h2; exact Or.inr (Or.inr h2)
      · simp at h2

lemma contain_notWait (dfuel : Nat) (ha : Option Nat) (m : Msg) :
    ∀ e ∈ (contain dfuel ha m).1, notWaitEv e = true := by
  intro e he
  rcases contain_mem dfuel ha m e he with h | h | h
  · subst h; rfl
  · exact handlerEv_notWait e h
  · subst h; rfl

lemma beginMsg_handler (e : Ev) (h : handlerEv e = true) : beginMsg e = none := by
  cases e <;> simp_all [handlerEv, beginMsg]

/-! Helper lemmas on the trace scanners and counters. -/

lemma beginsOf_append (xs ys : List Ev) :
    beginsOf (xs ++ ys) = beginsOf xs ++ beginsOf ys := by
  simp [beginsOf, List.filterMap_append]

lemma beginsOf_dispatch (dfuel : Nat) (ha : Option Nat) (m : Msg) :
    beginsOf (dispatch dfuel ha m).1 = [] := by
  rw [beginsOf, List.filterMap_eq_nil_iff]
  intro e he
  exact beginMsg_handler e (dispatch_mem dfuel ha m e he)

lemma beginsOf_contain (dfuel : Nat) (ha : Option Nat) (m : Msg) :
    beginsOf (contain dfuel ha m).1 = [m] := by
  have h1 := beginsOf_dispatch dfuel ha m
  simp only [contain]
  rw [show Ev.dispatchBegin m :: (dispatch dfuel ha m).1 ++
        (if (dispatch dfuel ha m).2.2 = DResult.exc then [Ev.logError] else []) =
      [Ev.dispatchBegin m] ++ (dispatch dfuel ha m).1 ++
        (if (dispatch dfuel ha m).2.2 = DResult.exc then [Ev.logError] else []) from rfl]
  rw [beginsOf_append, beginsOf_append, h1]
  split <;> simp [beginsOf, beginMsg, List.filterMap_cons]

lemma cfs_cons (x : Ev) (h : notWaitEv x = true) (p : Bool) (t : List Ev) :
    cfs p (x :: t) = cfs false t := by
  cases x <;> simp_all [cfs, notWaitEv]

lemma cfs_append (ys : List Ev) :
    ∀ xs, (∀ e ∈ xs, notWaitEv e = true) → cfs false (xs ++ ys) = cfs false ys := by
  intro xs
  induction xs with
  | nil => intro _; rfl
  | cons x t ih =>
      intro h
      rw [List.cons_append, cfs_cons x (h x (by simp)) false (t ++ ys),
        ih (fun e he => h e (by simp [he]))]

lemma aso_cons (x : Ev) (h : notWaitEv x = true) (t : List Ev) :
    afterStopOnlyShun (x :: t) = afterStopOnlyShun t := by
  cases x <;> simp_all [afterStopOnlyShun, notWaitEv]

lemma aso_append (ys : List Ev) :
    ∀ xs, (∀ e ∈ xs, notWaitEv e = true) →
      afterStopOnlyShun (xs ++ ys) = afterStopOnlyShun ys := by
  intro xs
  induction xs with
  | nil => intro _; rfl
  | cons x t ih =>
      intro h
      rw [List.cons_append, aso_cons x (h x (by simp)) (t ++ ys),
        ih (fun e he => h e (by simp [he]))]

lemma slo_cons (x : Ev) (h : notWaitEv x = true) (t : List Ev) :
    shunLastOnly (x :: t) = shunLastOnly t := by
  cases x <;> simp_all [shunLastOnly, notWaitEv]

lemma slo_append (ys : List Ev) :
    ∀ xs, (∀ e ∈ xs, notWaitEv e = true) →
      shunLastOnly (xs ++ ys) = shunLastOnly ys := by
  intro xs
  induction xs with
  | nil => intro _; rfl
  | cons x t ih =>
      intro h
      rw [List.cons_append, slo_cons x (h x (by simp)) (t ++ ys),
        ih (fun e he => h e (by simp [he]))]

lemma callCount_append (c : Ev) (xs ys : List Ev) :
    callCount c (xs ++ ys) = callCount c xs + callCount c ys := by
  induction xs with
  | nil => simp [callCount]
  | cons x t ih => simp [callCount, ih]; omega

lemma callCount_zero_notWait (c : Ev) (hc : notWaitEv c = false) :
    ∀ xs, (∀ e ∈ xs, notWaitEv e = true) → callCount c xs = 0 := by
  intro xs
  induction xs with
  | nil => intro _; rfl
  | cons x t ih =>
      intro h
      have hx : ¬ x = c := by
        intro hxc
        have hxn := h x (List.mem_cons_self x t)
        rw [hxc, hc] at hxn
        exact Bool.noConfusion hxn
      simp [callCount, hx, ih (fun e he => h e (by simp [he]))]

lemma callCount_zero_handler (c : Ev) (hc : handlerEv c = false) :
    ∀ xs, (∀ e ∈ xs, handlerEv e = true) → callCount c xs = 0 := by
  intro xs
  induction xs with
  | nil => intro _; rfl
  | cons x t ih =>
      intro h
      have hx : ¬ x = c := by
        intro hxc
        have hxn := h x (List.mem_cons_self x t)
        rw [hxc, hc] at hxn
        exact Bool.noConfusion hxn
      simp [callCount, hx, ih (fun e he => h e (by simp [he]))]

lemma checkCount_zero :
    ∀ xs, (∀ e ∈ xs, handlerEv e = true) → checkCount xs = 0 := by
  intro xs
  induction xs with
  | nil => intro _; rfl
  | cons x t ih =>
      intro h
      have hx := h x (List.mem_cons_self x t)
      have ht := ih (fun e he => h e (by simp [he]))
      cases x <;> simp_all [handlerEv, checkCount]

lemma callCount_cons (c x : Ev) (t : List Ev) :
    callCount c (x :: t) = (if x = c then 1 else 0) + callCount c t := rfl

lemma callCount_retryExpected (call : Ev) (h1 : call ≠ Ev.retryLogError)
    (h2 : call ≠ Ev.retrySleep) :
    ∀ N, callCount call (retryExpected call N) = N + 1 := by
  intro N
  induction N with
  | zero => simp [retryExpected, callCount]
  | succ k ih =>
      show callCount call
          (call :: Ev.retryLogError :: Ev.retrySleep :: retryExpected call k) = k + 1 + 1
      rw [callCount_cons, callCount_cons, callCount_cons, ih, if_pos rfl,
        if_neg (Ne.symm h1), if_neg (Ne.symm h2)]
      omega

/-! Helper lemmas on the loop itself. -/

lemma runLoop_cons (stop : Nat → Bool) (dfuel n : Nat) (m : Msg) (rest : List Msg)
    (ha : Option Nat) (sc : Nat) :
    runLoop stop dfuel (n + 1) (m :: rest) ha sc =
      (contain dfuel ha m).1 ++
        afterDispatch (contain dfuel ha m).2.2
          (runLoop stop dfuel n rest (contain dfuel ha m).2.1 sc) := rfl

lemma runLoop_nil (stop : Nat → Bool) (dfuel : Nat) :
    ∀ w ha sc, runLoop stop dfuel w [] ha sc = waitTail stop w sc := by
  intro w
  induction w with
  | zero => intro ha sc; rfl
  | succ n ih => intro ha sc; simp [runLoop, waitTail, ih]

lemma runLoop_cfs (stop : Nat → Bool) (dfuel : Nat) :
    ∀ fuel q ha sc, cfs false (runLoop stop dfuel fuel q ha sc) = true := by
  intro fuel
  induction fuel with
  | zero => intro q ha sc; rfl
  | succ n ih =>
      intro q ha sc
      cases q with
      | nil =>
          by_cases hs : stop sc
          · simp [runLoop, hs, cfs]
          · simp [runLoop, hs, cfs, ih]
      | cons m rest =>
          rw [runLoop_cons, cfs_append _ _ (contain_notWait dfuel ha m)]
          cases hr : (contain dfuel ha m).2.2 <;> simp [afterDispatch, cfs, ih]

lemma runLoop_aso (stop : Nat → Bool) (dfuel : Nat) :
    ∀ fuel q ha sc, afterStopOnlyShun (runLoop stop dfuel fuel q ha sc) = true := by
  intro fuel
  induction fuel with
  | zero => intro q ha sc; rfl
  | succ n ih =>
      intro q ha sc
      cases q with
      | nil =>
          by_cases hs : stop sc
          · simp [runLoop, hs]
            decide
          · simp [runLoop, hs, afterStopOnlyShun, ih]
      | cons m rest =>
          rw [runLoop_cons, aso_append _ _ (contain_notWait dfuel ha m)]
          cases hr : (contain dfuel ha m).2.2 <;> simp [afterDispatch, ih] <;> decide

lemma runLoop_slo (stop : Nat → Bool) (dfuel : Nat) :
    ∀ fuel q ha sc, shunLastOnly (runLoop stop dfuel fuel q ha sc) = true := by
  intro fuel
  induction fuel with
  | zero => intro q ha sc; rfl
  | succ n ih =>
      intro q ha sc
      cases q with
      | nil =>
          by_cases hs : stop sc
          · simp [runLoop, hs]
            decide
          · simp [runLoop, hs, shunLastOnly, ih]
      | cons m rest =>
          rw [runLoop_cons, slo_append _ _ (contain_notWait dfuel ha m)]
          cases hr : (contain dfuel ha m).2.2 <;> simp [afterDispatch, ih] <;> decide

lemma callCount_shun_contain (dfuel : Nat) (ha : Option Nat) (m : Msg) :
    callCount Ev.shun (contain dfuel ha m).1 = 0 :=
  callCount_zero_notWait Ev.shun rfl _ (contain_notWait dfuel ha m)

lemma callCount_adopt_contain (dfuel : Nat) (ha : Option Nat) (m : Msg) :
    callCount Ev.adopt (contain dfuel ha m).1 = 0 :=
  callCount_zero_notWait Ev.adopt rfl _ (contain_notWait dfuel ha m)

lemma runLoop_shun_le (stop : Nat → Bool) (dfuel : Nat) :
    ∀ fuel q ha sc, callCount Ev.shun (runLoop stop dfuel fuel q ha sc) ≤ 1 := by
  intro fuel
  induction fuel with
  | zero => intro q ha sc; exact Nat.zero_le 1
  | succ n ih =>
      intro q ha sc
      cases q with
      | nil =>
          by_cases hs : stop sc
          · simp [runLoop, hs, callCount]
          · simp [runLoop, hs, callCount]
            exact ih [] ha (sc + 1)
      | cons m rest =>
          rw [runLoop_cons, callCount_append, callCount_shun_contain]
          cases hr : (contain dfuel ha m).2.2 <;> simp [afterDispatch, callCount] <;>
            exact ih rest (contain dfuel ha m).2.1 sc

lemma runLoop_adopt (stop : Nat → Bool) (dfuel : Nat) :
    ∀ fuel q ha sc, callCount Ev.adopt (runLoop stop dfuel fuel q ha sc) = 0 := by
  intro fuel
  induction fuel with
  | zero => intro q ha sc; rfl
  | succ n ih =>
      intro q ha sc
      cases q with
      | nil =>
          by_cases hs : stop sc
          · simp [runLoop, hs, callCount]
          · simp [runLoop, hs, callCount]
            exact ih [] ha (sc + 1)
      | cons m rest =>
          rw [runLoop_cons, callCount_append, callCount_adopt_contain]
          cases hr : (contain dfuel ha m).2.2 <;> simp [afterDispatch, callCount] <;>
            exact ih rest (contain dfuel ha m).2.1 sc

lemma beginsOf_waitTail (stop : Nat → Bool) :
    ∀ w sc, beginsOf (waitTail stop w sc) = [] := by
  intro w
  induction w with
  | zero => intro sc; rfl
  | succ n ih =>
      intro sc
      by_cases hs : stop sc
      · have hw : waitTail stop (n + 1) sc =
            [Ev.sleepWait, Ev.checkStop (stop sc), Ev.shun] := by
          simp [waitTail, hs]
        rw [hw]
        rfl
      · have hw : waitTail stop (n + 1) sc =
            Ev.sleepWait :: Ev.checkStop (stop sc) :: waitTail stop n (sc + 1) := by
          simp [waitTail, hs]
        rw [hw]
        show beginsOf (waitTail stop n (sc + 1)) = []
        exact ih (sc + 1)

lemma runLoop_begins_take (stop : Nat → Bool) (dfuel : Nat) :
    ∀ fuel q ha sc, ∃ k, beginsOf (runLoop stop dfuel fuel q ha sc) = q.take k := by
  intro fuel
  induction fuel with
  | zero => intro q ha sc; exact ⟨0, by simp [runLoop, beginsOf]⟩
  | succ n ih =>
      intro q ha sc
      cases q with
      | nil =>
          refine ⟨0, ?_⟩
          rw [runLoop_nil, beginsOf_waitTail]
          rfl
      | cons m rest =>
          obtain ⟨k, hk⟩ := ih rest (contain dfuel ha m).2.1 sc
          rw [runLoop_cons, beginsOf_append, beginsOf_contain]
          cases hr : (contain dfuel ha m).2.2 with
          | ok =>
              refine ⟨k + 1, ?_⟩
              show [m] ++ beginsOf (runLoop stop dfuel n rest (contain dfuel ha m).2.1 sc) =
                (m :: rest).take (k + 1)
              rw [hk]; rfl
          | exc =>
              refine ⟨k + 1, ?_⟩
              show [m] ++ beginsOf (runLoop stop dfuel n rest (contain dfuel ha m).2.1 sc) =
                (m :: rest).take (k + 1)
              rw [hk]; rfl
          | stop => exact ⟨1, rfl⟩
          | diverge => exact ⟨1, rfl⟩

lemma beginsOf_okRun (dfuel : Nat) :
    ∀ q ha, beginsOf (okRun dfuel q ha) = q := by
  intro q
  induction q with
  | nil => intro ha; rfl
  | cons m rest ih =>
      intro ha
      rw [show okRun dfuel (m :: rest) ha =
          (contain dfuel ha m).1 ++ okRun dfuel rest (contain dfuel ha m).2.1 from rfl]
      rw [beginsOf_append, beginsOf_contain, ih]
      rfl

lemma runLoop_tame (stop : Nat → Bool) (dfuel : Nat) :
    ∀ q ha sc w, resultsTame dfuel q ha = true →
      runLoop stop dfuel (q.length + w) q ha sc =
        okRun dfuel q ha ++ waitTail stop w sc := by
  intro q
  induction q with
  | nil => intro ha sc w _; simp [okRun, runLoop_nil]
  | cons m rest ih =>
      intro ha sc w ht
      rw [show resultsTame dfuel (m :: rest) ha =
          ((((contain dfuel ha m).2.2 == DResult.ok) ||
            ((contain dfuel ha m).2.2 == DResult.exc)) &&
           resultsTame dfuel rest (contain dfuel ha m).2.1) from rfl] at ht
      simp only [Bool.and_eq_true, Bool.or_eq_true, beq_iff_eq] at ht
      obtain ⟨h1, h2⟩ := ht
      rw [show (m :: rest).length + w = (rest.length + w) + 1 from by
        simp [List.length_cons]; omega]
      rw [runLoop_cons,
        show okRun dfuel (m :: rest) ha =
          (contain dfuel ha m).1 ++ okRun dfuel rest (contain dfuel ha m).2.1 from rfl]
      rcases h1 with h | h <;>
        rw [h] <;>
        simp [afterDispatch, ih (contain dfuel ha m).2.1 sc w h2, List.append_assoc]

lemma aso_ends :
    ∀ t : List Ev, afterStopOnlyShun t = true → Ev.checkStop true ∈ t →
      ∃ pre, t = pre ++ [Ev.shun] := by
  intro t
  induction t with
  | nil => intro _ h; simp at h
  | cons x rest ih =>
      intro ha hm
      by_cases hx : x = Ev.checkStop true
      · subst hx
        rw [show afterStopOnlyShun (Ev.checkStop true :: rest) =
            decide (rest = [Ev.shun]) from rfl] at ha
        rw [decide_eq_true_eq] at ha
        exact ⟨[Ev.checkStop true], by simp [ha]⟩
      · have ha' : afterStopOnlyShun rest = true := by
          cases x with
          | checkStop b =>
              cases b with
              | true => exact absurd rfl hx
              | false => simpa [afterStopOnlyShun] using ha
          | _ => first
            | simpa [afterStopOnlyShun] using ha
        rcases List.mem_cons.mp hm with h | h
        · exact absurd h.symm hx
        · obtain ⟨pre, hp⟩ := ih ha' h
          exact ⟨x :: pre, by rw [hp]; rfl⟩

/-! The claims. -/

/-- C1: the claim states that every dispatched BroadcastHAStates message has
its states broadcast via the HA link and, when a reply channel is attached,
the correlation-id list written to that channel.  The code refutes this: the
`BroadcastHAStates` arm reads the function-local `ha_link`, which is assigned
only in the `EntrypointRequest` arm, so a BroadcastHAStates dispatched before
any EntrypointRequest raises `UnboundLocalError`, which the catch-all
swallows and logs.  This theorem evaluates the run at that failing input: the
whole trace contains no broadcast call and no reply-channel write, only the
containment log entry. -/
theorem C1_broadcast_unbound_ha_link :
    run (fun _ => true) 8 8 [Msg.broadcastHAStates [5] (some 0) Outcome.ok [7]] =
      [Ev.adopt, Ev.dispatchBegin (Msg.broadcastHAStates [5] (some 0) Outcome.ok [7]),
       Ev.logError, Ev.sleepWait, Ev.checkStop true, Ev.shun] ∧
    pubCount (run (fun _ => true) 8 8
        [Msg.broadcastHAStates [5] (some 0) Outcome.ok [7]]) = 0 ∧
    putCount (run (fun _ => true) 8 8
        [Msg.broadcastHAStates [5] (some 0) Outcome.ok [7]]) = 0 ∧
    (∀ l s, callCount (Ev.broadcast l s) (run (fun _ => true) 8 8
        [Msg.broadcastHAStates [5] (some 0) Outcome.ok [7]]) = 0) := by
  refine ⟨by decide, by decide, by decide, ?_⟩
  intro l s
  rw [show run (fun _ => true) 8 8 [Msg.broadcastHAStates [5] (some 0) Outcome.ok [7]] =
      [Ev.adopt, Ev.dispatchBegin (Msg.broadcastHAStates [5] (some 0) Outcome.ok [7]),
       Ev.logError, Ev.sleepWait, Ev.checkStop true, Ev.shun] from by decide]
  simp [callCount]

/-- C2: in every reachable trace of the consumer loop, each read of the stop
flag comes immediately after the fixed-interval sleep of the empty-mailbox
wait (first conjunct), no dispatch step ever reads the flag (second
conjunct), after a read that observes the flag set the only remaining event
is the release handshake, so no message dequeued after that check is started
(third conjunct), and a message at the head of the queue is dispatched to
full completion regardless of the stop oracle, the flag notwithstanding
(fourth conjunct). -/
theorem C2_stop_checked_only_while_waiting :
    (∀ stop dfuel fuel q, cfs false (run stop dfuel fuel q) = true) ∧
    (∀ dfuel ha m, checkCount (dispatch dfuel ha m).1 = 0) ∧
    (∀ stop dfuel fuel q, afterStopOnlyShun (run stop dfuel fuel q) = true) ∧
    (∀ stop dfuel fuel m rest,
        run stop dfuel (fuel + 1) (m :: rest) =
          Ev.adopt :: (contain dfuel none m).1 ++
            afterDispatch (contain dfuel none m).2.2
              (runLoop stop dfuel fuel rest (contain dfuel none m).2.1 0)) := by
  refine ⟨?_, ?_, ?_, ?_⟩
  · intro stop dfuel fuel q
    show cfs false (runLoop stop dfuel fuel q none 0) = true
    exact runLoop_cfs stop dfuel fuel q none 0
  · intro dfuel ha m
    exact checkCount_zero _ (dispatch_mem dfuel ha m)
  · intro stop dfuel fuel q
    show afterStopOnlyShun (runLoop stop dfuel fuel q none 0) = true
    exact runLoop_aso stop dfuel fuel q none 0
  · intro stop dfuel fuel m rest
    rfl

/-- C3: an ordinary exception raised by a non-retried dispatch action is
caught and logged, the message is dropped, and the loop continues with the
remaining queue (first conjunct); a dispatch that raises the stop-signal
exception is not caught and terminates the loop instead (second conjunct);
in particular an EntrypointRequest whose reply send throws produces exactly
this swallowed-exception outcome (third conjunct). -/
theorem C3_exception_swallowed_logged :
    (∀ stop dfuel fuel m rest ha sc,
        (dispatch dfuel ha m).2.2 = DResult.exc →
        runLoop stop dfuel (fuel + 1) (m :: rest) ha sc =
          Ev.dispatchBegin m :: (dispatch dfuel ha m).1 ++ [Ev.logError] ++
            runLoop stop dfuel fuel rest (dispatch dfuel ha m).2.1 sc) ∧
    (∀ stop dfuel fuel m rest ha sc,
        (dispatch dfuel ha m).2.2 = DResult.stop →
        runLoop stop dfuel (fuel + 1) (m :: rest) ha sc =
          Ev.dispatchBegin m :: (dispatch dfuel ha m).1 ++ [Ev.shun]) ∧
    (∀ dfuel ha l,
        (dispatch dfuel ha (Msg.entrypointRequest l Outcome.exc)).2.2 = DResult.exc ∧
        (dispatch dfuel ha (Msg.entrypointRequest l Outcome.exc)).1 =
          [Ev.sendEntrypointReply l]) := by
  refine ⟨?_, ?_, ?_⟩
  · intro stop dfuel fuel m rest ha sc h
    rw [runLoop_cons]
    simp [contain, afterDispatch, h]
  · intro stop dfuel fuel m rest ha sc h
    rw [runLoop_cons]
    simp [contain, afterDispatch, h]
  · intro dfuel ha l
    exact ⟨rfl, rfl⟩

/-- C3 witness: a concrete EntrypointRequest whose reply send throws; the
hypothesis of the claim theorem is discharged at this input and the
conclusion instantiated there. -/
theorem C3_exception_swallowed_logged_witness :
    (dispatch 3 none (Msg.entrypointRequest 1 Outcome.exc)).2.2 = DResult.exc ∧
    runLoop (fun _ => true) 3 (0 + 1) [Msg.entrypointRequest 1 Outcome.exc] none 0 =
      Ev.dispatchBegin (Msg.entrypointRequest 1 Outcome.exc) ::
        (dispatch 3 none (Msg.entrypointRequest 1 Outcome.exc)).1 ++ [Ev.logError] ++
        runLoop (fun _ => true) 3 0 []
          (dispatch 3 none (Msg.entrypointRequest 1 Outcome.exc)).2.1 0 :=
  ⟨by decide,
   C3_exception_swallowed_logged.1 (fun _ => true) 3 0
     (Msg.entrypointRequest 1 Outcome.exc) [] none 0 (by decide)⟩

/-- C4: a retried handler action (ProcessEvent, NvecGetEvent) that fails
exactly N times and then succeeds is invoked exactly N+1 times, with the
fixed-interval retry sleep between consecutive invocations (the trace is N
blocks of invocation, error log, retry sleep, then the final invocation),
for every N, so there is no maximum attempt count; and while the wrapped
action has not succeeded, no other message is dispatched: the continuation
of the loop starts only after the full dispatch trace (third conjunct). -/
theorem C4_retry_until_success :
    (∀ ev N fuel ha, N < fuel →
        dispatch fuel ha (Msg.processEvent ev (some N)) =
          (retryExpected (Ev.updateProcessStatus ev) N, ha, DResult.ok) ∧
        callCount (Ev.updateProcessStatus ev)
          (retryExpected (Ev.updateProcessStatus ev) N) = N + 1) ∧
    (∀ l N fuel ha, N < fuel →
        dispatch fuel ha (Msg.haNvecGetEvent l (some N)) =
          (retryExpected (Ev.nvecGetReply l) N, ha, DResult.ok) ∧
        callCount (Ev.nvecGetReply l) (retryExpected (Ev.nvecGetReply l) N) = N + 1) ∧
    (∀ stop dfuel fuel m rest ha sc,
        (dispatch dfuel ha m).2.2 = DResult.ok →
        runLoop stop dfuel (fuel + 1) (m :: rest) ha sc =
          Ev.dispatchBegin m :: (dispatch dfuel ha m).1 ++
            runLoop stop dfuel fuel rest (dispatch dfuel ha m).2.1 sc) := by
  refine ⟨?_, ?_, ?_⟩
  · intro ev N fuel ha h
    constructor
    · simp [dispatch, repeat_closed (Ev.updateProcessStatus ev) N fuel h]
    · exact callCount_retryExpected _ (by simp) (by simp) N
  · intro l N fuel ha h
    constructor
    · simp [dispatch, repeat_closed (Ev.nvecGetReply l) N fuel h]
    · exact callCount_retryExpected _ (by simp) (by simp) N
  · intro stop dfuel fuel m rest ha sc h
    rw [runLoop_cons]
    simp [contain, afterDispatch, h]

/-- C4 witness: a ProcessEvent whose status update fails exactly twice and
then succeeds, at retry fuel 4: three invocations with the retry sleep
between them. -/
theorem C4_retry_until_success_witness :
    (2 < 4) ∧
    dispatch 4 none (Msg.processEvent 9 (some 2)) =
      (retryExpected (Ev.updateProcessStatus 9) 2, none, DResult.ok) ∧
    callCount (Ev.updateProcessStatus 9)
      (retryExpected (Ev.updateProcessStatus 9) 2) = 2 + 1 :=
  ⟨by decide, C4_retry_until_success.1 9 2 4 none (by decide)⟩

/-- C5: dispatching a StobIoqError serializes the payload with the
deterministic function `dump_json` (a pure function of the message fields,
so the same input yields identical output on every run), calls the event-log
publisher exactly once, always under the fixed category key STOB_IOQ, and
logs the sequence offset the publisher returned. -/
theorem C5_stob_ioq_publish_once :
    ∀ dfuel ha fid payload off,
      dispatch dfuel ha (Msg.stobIoqError fid payload off) =
        ([Ev.publish "STOB_IOQ" (dump_json fid payload), Ev.logOffset off], ha,
         DResult.ok) ∧
      pubCount (dispatch dfuel ha (Msg.stobIoqError fid payload off)).1 = 1 ∧
      callCount (Ev.logOffset off)
        (dispatch dfuel ha (Msg.stobIoqError fid payload off)).1 = 1 := by
  intro dfuel ha fid payload off
  refine ⟨rfl, rfl, ?_⟩
  simp [dispatch, callCount]

/-- C6: dispatching an SnsRepairStatusRequest first sleeps the fixed delay
and then writes exactly one synthetic hard-coded status record (progress 25,
status M0_CMS_ACTIVE, fid 0x7200000000000001:0xdeadbeef) to the message's
reply channel; no retry wrapping is applied (no retry-sleep or retry-log
events occur in the dispatch trace). -/
theorem C6_sns_stub_reply :
    ∀ dfuel ha ch,
      dispatch dfuel ha (Msg.snsRepairStatus ch) =
        ([Ev.sleepSns, Ev.chanPut ch (ChanVal.snsStatus [snsStub])], ha,
         DResult.ok) ∧
      putCount (dispatch dfuel ha (Msg.snsRepairStatus ch)).1 = 1 ∧
      callCount Ev.retrySleep (dispatch dfuel ha (Msg.snsRepairStatus ch)).1 = 0 ∧
      callCount Ev.retryLogError (dispatch dfuel ha (Msg.snsRepairStatus ch)).1 = 0 ∧
      snsStub = { progress := 25, status := "M0_CMS_ACTIVE",
                  fid := { container := 0x7200000000000001, key := 0xdeadbeef } } := by
  intro dfuel ha ch
  refine ⟨rfl, rfl, ?_, ?_, rfl⟩ <;> simp [dispatch, callCount]

/-- C7: a dequeued item that is none of the six recognized variants produces
exactly one warning log event and nothing else, does not raise, leaves the
`ha_link` binding unchanged, and the loop continues with the same remaining
queue and the same stop-check counter. -/
theorem C7_unknown_logs_warning :
    ∀ dfuel ha t,
      dispatch dfuel ha (Msg.unknown t) = ([Ev.logWarnUnsupported], ha, DResult.ok) ∧
      callCount Ev.logWarnUnsupported (dispatch dfuel ha (Msg.unknown t)).1 = 1 ∧
      (∀ stop fuel rest sc,
        runLoop stop dfuel (fuel + 1) (Msg.unknown t :: rest) ha sc =
          Ev.dispatchBegin (Msg.unknown t) :: Ev.logWarnUnsupported ::
            runLoop stop dfuel fuel rest ha sc) := by
  intro dfuel ha t
  refine ⟨rfl, by simp [dispatch, callCount], ?_⟩
  intro stop fuel rest sc
  rw [runLoop_cons]
  simp [contain, dispatch, afterDispatch]

/-- C8: dispatch order is strict FIFO: in every run the sequence of messages
whose dispatch begins is a prefix of the enqueue order (first conjunct); and
when every dispatch returns or is swallowed, the whole trace decomposes into
the guarded dispatch traces of the messages in enqueue order, one completed
before the next begins, followed by a wait tail containing no dispatch
(second conjunct). -/
theorem C8_fifo_order :
    (∀ stop dfuel fuel q ha sc, ∃ k,
        beginsOf (runLoop stop dfuel fuel q ha sc) = q.take k) ∧
    (∀ stop dfuel w q ha sc, resultsTame dfuel q ha = true →
        runLoop stop dfuel (q.length + w) q ha sc =
          okRun dfuel q ha ++ waitTail stop w sc ∧
        beginsOf (okRun dfuel q ha) = q ∧
        beginsOf (waitTail stop w sc) = []) := by
  constructor
  · intro stop dfuel
    exact runLoop_begins_take stop dfuel
  · intro stop dfuel w q ha sc h
    exact ⟨runLoop_tame stop dfuel q ha sc w h, beginsOf_okRun dfuel q ha,
      beginsOf_waitTail stop w sc⟩

/-- C8 witness: a concrete two-message queue with tame dispatches; the trace
is the two guarded dispatch traces in enqueue order followed by the wait
tail. -/
theorem C8_fifo_order_witness :
    resultsTame 2 [Msg.unknown 0, Msg.entrypointRequest 1 Outcome.ok] none = true ∧
    (runLoop (fun _ => true) 2
        ([Msg.unknown 0, Msg.entrypointRequest 1 Outcome.ok].length + 1)
        [Msg.unknown 0, Msg.entrypointRequest 1 Outcome.ok] none 0 =
      okRun 2 [Msg.unknown 0, Msg.entrypointRequest 1 Outcome.ok] none ++
        waitTail (fun _ => true) 1 0 ∧
     beginsOf (okRun 2 [Msg.unknown 0, Msg.entrypointRequest 1 Outcome.ok] none) =
       [Msg.unknown 0, Msg.entrypointRequest 1 Outcome.ok] ∧
     beginsOf (waitTail (fun _ => true) 1 0) = []) :=
  ⟨by decide,
   C8_fifo_order.2 (fun _ => true) 2 1
     [Msg.unknown 0, Msg.entrypointRequest 1 Outcome.ok] none 0 (by decide)⟩

/-- C9: every run starts with the adopt handshake, which occurs exactly once
and before everything else (first conjunct); no dispatch step performs it
(second conjunct); the release handshake occurs at most once and only as the
final event of a trace (third conjunct); and a run in which the loop
observed the stop flag set performs the release handshake exactly once, as
the final event after the loop exits (fourth conjunct). -/
theorem C9_adopt_shun_handshake :
    (∀ stop dfuel fuel q,
        (run stop dfuel fuel q).head? = some Ev.adopt ∧
        callCount Ev.adopt (run stop dfuel fuel q) = 1) ∧
    (∀ dfuel ha m, callCount Ev.adopt (dispatch dfuel ha m).1 = 0) ∧
    (∀ stop dfuel fuel q,
        shunLastOnly (run stop dfuel fuel q) = true ∧
        callCount Ev.shun (run stop dfuel fuel q) ≤ 1) ∧
    (∀ stop dfuel fuel q,
        Ev.checkStop true ∈ run stop dfuel fuel q →
        callCount Ev.shun (run stop dfuel fuel q) = 1 ∧
        ∃ pre, run stop dfuel fuel q = pre ++ [Ev.shun]) := by
  refine ⟨?_, ?_, ?_, ?_⟩
  · intro stop dfuel fuel q
    refine ⟨rfl, ?_⟩
    rw [show run stop dfuel fuel q =
        Ev.adopt :: runLoop stop dfuel fuel q none 0 from rfl, callCount_cons,
      if_pos rfl, runLoop_adopt]
  · intro dfuel ha m
    exact callCount_zero_handler Ev.adopt rfl _ (dispatch_mem dfuel ha m)
  · intro stop dfuel fuel q
    constructor
    · show shunLastOnly (runLoop stop dfuel fuel q none 0) = true
      exact runLoop_slo stop dfuel fuel q none 0
    · rw [show run stop dfuel fuel q =
          Ev.adopt :: runLoop stop dfuel fuel q none 0 from rfl, callCount_cons,
        if_neg (show ¬ Ev.adopt = Ev.shun by decide)]
      have := runLoop_shun_le stop dfuel fuel q none 0
      omega
  · intro stop dfuel fuel q hm
    have haso : afterStopOnlyShun (run stop dfuel fuel q) = true := by
      show afterStopOnlyShun (runLoop stop dfuel fuel q none 0) = true
      exact runLoop_aso stop dfuel fuel q none 0
    obtain ⟨pre, hp⟩ := aso_ends _ haso hm
    have hle : callCount Ev.shun (run stop dfuel fuel q) ≤ 1 := by
      rw [show run stop dfuel fuel q =
          Ev.adopt :: runLoop stop dfuel fuel q none 0 from rfl, callCount_cons,
        if_neg (show ¬ Ev.adopt = Ev.shun by decide)]
      have := runLoop_shun_le stop dfuel fuel q none 0
      omega
    have hone : callCount Ev.shun (run stop dfuel fuel q) =
        callCount Ev.shun pre + 1 := by
      rw [hp, callCount_append]
      simp [callCount]
    exact ⟨by omega, ⟨pre, hp⟩⟩

/-- C9 witness: a run with the stop flag already set and an empty queue; the
loop observes the flag at the first check and the trace ends with the single
release handshake. -/
theorem C9_adopt_shun_handshake_witness :
    Ev.checkStop true ∈ run (fun _ => true) 5 2 [] ∧
    (callCount Ev.shun (run (fun _ => true) 5 2 []) = 1 ∧
     ∃ pre, run (fun _ => true) 5 2 [] = pre ++ [Ev.shun]) :=
  ⟨by decide, C9_adopt_shun_handshake.2.2.2 (fun _ => true) 5 2 [] (by decide)⟩

/-- C10: the error-containment exemption is keyed on the exception type of
the stop signal: a handler action that itself raises that type makes the
dispatch result the stop result, the loop then terminates immediately after
the dispatch with the release handshake and no containment log entry, and
no further message is dispatched — exactly as for an operator-requested
stop (first conjunct); an EntrypointRequest whose send raises the
stop-signal exception is such a handler (second conjunct). -/
theorem C10_stop_exception_type_keyed :
    (∀ stop dfuel fuel m rest ha sc,
        (dispatch dfuel ha m).2.2 = DResult.stop →
        runLoop stop dfuel (fuel + 1) (m :: rest) ha sc =
          Ev.dispatchBegin m :: (dispatch dfuel ha m).1 ++ [Ev.shun] ∧
        callCount Ev.logError
          (runLoop stop dfuel (fuel + 1) (m :: rest) ha sc) = 0) ∧
    (∀ dfuel ha l,
        (dispatch dfuel ha (Msg.entrypointRequest l Outcome.stopExc)).2.2 =
          DResult.stop) := by
  constructor
  · intro stop dfuel fuel m rest ha sc h
    have heq : runLoop stop dfuel (fuel + 1) (m :: rest) ha sc =
        Ev.dispatchBegin m :: (dispatch dfuel ha m).1 ++ [Ev.shun] := by
      rw [runLoop_cons]
      simp [contain, afterDispatch, h]
    refine ⟨heq, ?_⟩
    rw [heq, show Ev.dispatchBegin m :: (dispatch dfuel ha m).1 ++ [Ev.shun] =
        Ev.dispatchBegin m :: ((dispatch dfuel ha m).1 ++ [Ev.shun]) from rfl,
      callCount_cons, if_neg (show ¬ Ev.dispatchBegin m = Ev.logError by simp),
      callCount_append,
      callCount_zero_handler Ev.logError rfl _ (dispatch_mem dfuel ha m)]
    simp [callCount]
  · intro dfuel ha l
    rfl

/-- C10 witness: a concrete EntrypointRequest whose reply send raises the
stop-signal exception type; the loop terminates with the release handshake
and no containment log entry. -/
theorem C10_stop_exception_type_keyed_witness :
    (dispatch 3 none (Msg.entrypointRequest 2 Outcome.stopExc)).2.2 = DResult.stop ∧
    (runLoop (fun _ => false) 3 (1 + 1)
        [Msg.entrypointRequest 2 Outcome.stopExc, Msg.unknown 7] none 0 =
      Ev.dispatchBegin (Msg.entrypointRequest 2 Outcome.stopExc) ::
        (dispatch 3 none (Msg.entrypointRequest 2 Outcome.stopExc)).1 ++ [Ev.shun] ∧
     callCount Ev.logError
       (runLoop (fun _ => false) 3 (1 + 1)
         [Msg.entrypointRequest 2 Outcome.stopExc, Msg.unknown 7] none 0) = 0) :=
  ⟨by decide,
   C10_stop_exception_type_keyed.1 (fun _ => false) 3 1
     (Msg.entrypointRequest 2 Outcome.stopExc) [Msg.unknown 7] none 0 (by decide)⟩

end HaxHandler
